import Mathlib

/-!
Formal model of `heuristica.py`: a genetic algorithm assigning work items
(`Processo`) to workers (`Funcionario`), balancing per-worker load under
capacity and specialty-compatibility constraints.

Modelling conventions:
* Python floats are modelled as exact rationals (`ℚ`); the program only adds,
  subtracts, multiplies and compares them.
* The global PRNG is modelled as an oracle `Rng`: a stream of rationals in
  `[0,1)` consumed by `random.random()`, and a stream of naturals consumed by
  `random.choice` (which picks index `n % len`, so every element is reachable;
  uniformity is a property of the oracle's distribution, which properties here
  quantify over).  `random.random()` can return `0.0` exactly, so draws range
  over `[0,1)` including `0`.
* Python exceptions are modelled with `Except Err`.
* A Python `dict` mapping a worker id to the list of item ids assigned to that
  worker is modelled as an association list `SolutionV`.  `dict.copy()` is a
  shallow copy sharing the inner `list` objects, and `mutacao` mutates those
  list objects in place; in the generational loop this aliasing is observable,
  so there solutions are association lists of *addresses* (`HSolution`) into a
  store of list objects (`Store`), mirroring the Python heap.
* The worker's mutable scratch field `carga_atual` is modelled by the explicit
  load-accumulator list threaded through `calcular_fitness`.
* Python's stable sort (`sorted` with a key) is modelled by a stable insertion
  sort; iteration over the Python set `todos_processos` (small nonnegative
  ints) is modelled by `List.dedup` order — claims are quantified over the
  oracle, so the particular order is immaterial to the properties proved.
* Wall-clock/memory metrics (`iniciar_metricas`, `finalizar_metricas`) and
  `print` calls are I/O with no effect on the optimization state and are
  omitted.
-/

deriving instance DecidableEq for Except

/-- Python exceptions that the modelled code can raise. -/
inductive Err where
  | keyError
  | indexError
  | valueError
  | stopIteration
  deriving DecidableEq, Repr

/-- `Processo` dataclass (a work item). -/
structure Processo where
  id : Nat
  categoria : Nat
  peso : ℚ
  urgencia : Nat
  tempo_estimado : ℚ
  deriving DecidableEq, Repr

/-- `Funcionario` dataclass (a worker); the scratch field `carga_atual` is
modelled by the accumulator in `calcular_fitness`. -/
structure Funcionario where
  id : Nat
  especialidades : List Nat
  carga_horaria : ℚ
  senioridade : Nat
  deriving DecidableEq, Repr

/-- The constructor parameters of `AlgoritmoGenetico.__init__`, stored
verbatim (the constructor performs no validation). -/
structure AlgoritmoGenetico where
  num_geracoes : ℤ
  tamanho_populacao : ℤ
  taxa_mutacao : ℚ
  taxa_crossover : ℚ
  deriving DecidableEq, Repr

/-- Oracle for the global PRNG. -/
structure Rng where
  floats : List ℚ
  nats : List Nat
  deriving DecidableEq, Repr

/-- One `random.random()` draw. -/
def nextFloat (g : Rng) : ℚ × Rng :=
  (g.floats.headD 0, ⟨g.floats.tail, g.nats⟩)

/-- One index draw for `random.choice`. -/
def nextNat (g : Rng) : Nat × Rng :=
  (g.nats.headD 0, ⟨g.floats, g.nats.tail⟩)

/-- `random.choice` on a list known to be nonempty (given as head + tail). -/
def pickFrom {α : Type} (x : α) (xs : List α) (g : Rng) : α × Rng :=
  ((x :: xs).getD ((nextNat g).1 % (xs.length + 1)) x, (nextNat g).2)

/-- `random.choice`; raises `IndexError` on an empty sequence. -/
def randomChoice {α : Type} (xs : List α) (g : Rng) : Except Err (α × Rng) :=
  match xs with
  | [] => .error .indexError
  | x :: rest => .ok (pickFrom x rest g)

/-! Mathlib's rational arithmetic is `@[irreducible]`, which blocks kernel
evaluation of concrete program runs.  The embedding therefore computes with
the following wrappers, each proved equal to the standard operation (see
`qadd_eq` etc. below), so that concrete executions evaluate by `decide`
while the general theorems use the ordinary algebra of `ℚ`. -/

/-- Kernel-computable addition on `ℚ`. -/
def qadd (a b : ℚ) : ℚ := mkRat (a.num * b.den + b.num * a.den) (a.den * b.den)

/-- Kernel-computable subtraction on `ℚ`. -/
def qsub (a b : ℚ) : ℚ := mkRat (a.num * b.den - b.num * a.den) (a.den * b.den)

/-- Kernel-computable multiplication on `ℚ`. -/
def qmul (a b : ℚ) : ℚ := mkRat (a.num * b.num) (a.den * b.den)

/-- Kernel-computable binary maximum on `ℚ`. -/
def qmax (a b : ℚ) : ℚ := if a ≤ b then b else a

/-- Kernel-computable binary minimum on `ℚ`. -/
def qmin (a b : ℚ) : ℚ := if a ≤ b then a else b

/-- Kernel-computable list sum on `ℚ`. -/
def qsum (l : List ℚ) : ℚ := l.foldr qadd 0

/-- A solution by value: worker id ↦ ordered list of assigned item ids. -/
abbrev SolutionV := List (Nat × List Nat)

/-- All item ids assigned anywhere in a solution, in iteration order
(flattening the per-worker lists). -/
def flattenIds (sol : SolutionV) : List Nat :=
  (sol.map (·.2)).flatten

/-- `defaultdict(list)` append: add `pid` to worker `fid`'s list, creating the
entry at the end if absent. -/
def addTo : SolutionV → Nat → Nat → SolutionV
  | [], fid, pid => [(fid, [pid])]
  | (w, l) :: rest, fid, pid =>
    if w = fid then (w, l ++ [pid]) :: rest else (w, l) :: addTo rest fid pid

/-- The workers whose specialty set contains category `cat`
(`[f for f in funcionarios if cat in f.especialidades]`). -/
def compatDe (funcionarios : List Funcionario) (cat : Nat) : List Funcionario :=
  funcionarios.filter (fun f => cat ∈ f.especialidades)

/-- Stable insertion (descending urgency) for
`sorted(processos, key=lambda p: -p.urgencia)`. -/
def insUrg (p : Processo) : List Processo → List Processo
  | [] => [p]
  | q :: rest =>
    if q.urgencia ≤ p.urgencia then p :: q :: rest else q :: insUrg p rest

/-- Stable sort of the work items by urgency, most urgent first. -/
def sortDescUrg (ps : List Processo) : List Processo :=
  ps.foldr insUrg []

/-- Body of `gerar_solucao_aleatoria`: walk the urgency-sorted items, skip an
item with no compatible worker, otherwise append it to a randomly chosen
compatible worker. -/
def gerarGo (funcionarios : List Funcionario) :
    List Processo → SolutionV → Rng → SolutionV × Rng
  | [], sol, g => (sol, g)
  | p :: rest, sol, g =>
    match compatDe funcionarios p.categoria with
    | [] => gerarGo funcionarios rest sol g
    | c :: cs =>
      gerarGo funcionarios rest (addTo sol (pickFrom c cs g).1.id p.id)
        (pickFrom c cs g).2

/-- `gerar_solucao_aleatoria`. -/
def gerar_solucao_aleatoria (funcionarios : List Funcionario)
    (processos : List Processo) (g : Rng) : SolutionV × Rng :=
  gerarGo funcionarios (sortDescUrg processos) [] g

/-- Sum of the weights of the items of one dict entry, looking each item up by
its `id` field (`next(p for p in processos if p.id == proc_id)`); raises
`StopIteration` on a missing item. -/
def sumPesos (processos : List Processo) : List Nat → Except Err ℚ
  | [] => .ok 0
  | pid :: rest =>
    match processos.find? (fun p => p.id = pid) with
    | none => .error .stopIteration
    | some p =>
      match sumPesos processos rest with
      | .error e => .error e
      | .ok s => .ok (qadd p.peso s)

/-- Add load `w` to the first accumulator entry whose worker has id `fid`
(the Python code mutates the first matching `Funcionario` object). -/
def aplicarCarga : List (Funcionario × ℚ) → Nat → ℚ → List (Funcionario × ℚ)
  | [], _, _ => []
  | (f, c) :: rest, fid, w =>
    if f.id = fid then (f, qadd c w) :: rest else (f, c) :: aplicarCarga rest fid w

/-- Load-accumulation loop of `calcular_fitness`: for each dict entry, check
the worker exists (`next(...)`, `StopIteration` otherwise), sum the entry's
item weights, and add them to that worker's accumulator. -/
def cargasGo (funcionarios : List Funcionario) (processos : List Processo) :
    SolutionV → List (Funcionario × ℚ) → Except Err (List (Funcionario × ℚ))
  | [], acc => .ok acc
  | e :: rest, acc =>
    if (funcionarios.find? (fun f => f.id = e.1)).isSome then
      match sumPesos processos e.2 with
      | .error err => .error err
      | .ok w => cargasGo funcionarios processos rest (aplicarCarga acc e.1 w)
    else .error .stopIteration

/-- `max` over a nonempty list of rationals, given as head + tail. -/
def maxQ (x : ℚ) (xs : List ℚ) : ℚ := xs.foldl qmax x

/-- `min` over a nonempty list of rationals, given as head + tail. -/
def minQ (x : ℚ) (xs : List ℚ) : ℚ := xs.foldl qmin x

/-- The capacity penalty: `(carga_atual - carga_horaria) * 1000` summed over
the workers whose load exceeds their capacity. -/
def penalidade (acc : List (Funcionario × ℚ)) : ℚ :=
  qsum (acc.map (fun fc =>
    if fc.1.carga_horaria < fc.2 then qmul (qsub fc.2 fc.1.carga_horaria) 1000 else 0))

/-- `calcular_fitness`: reset loads, accumulate, then
`max(cargas) - min(cargas)` plus the capacity penalty.  `max`/`min` of an
empty sequence raises `ValueError` (zero workers). -/
def calcular_fitness (funcionarios : List Funcionario)
    (processos : List Processo) (sol : SolutionV) : Except Err ℚ :=
  match cargasGo funcionarios processos sol (funcionarios.map (fun f => (f, 0))) with
  | .error e => .error e
  | .ok acc =>
    match acc with
    | [] => .error .valueError
    | fc :: rest =>
      .ok (qadd (qsub (maxQ fc.2 (rest.map (·.2))) (minQ fc.2 (rest.map (·.2))))
           (penalidade (fc :: rest)))

/-- The union of the item ids appearing in either parent (the Python set
`todos_processos`), in a canonical iteration order. -/
def todosDe (pai1 pai2 : SolutionV) : List Nat :=
  (flattenIds pai1 ++ flattenIds pai2).dedup

/-- Recombination loop of `crossover`: every collected item id is looked up
*positionally* (`self.processos[processo_id]`, `IndexError` when out of
range) and appended to a randomly chosen compatible worker; an item with no
compatible worker is dropped. -/
def recombineGo (funcionarios : List Funcionario) (processos : List Processo) :
    List Nat → SolutionV → Rng → Except Err (SolutionV × Rng)
  | [], acc, g => .ok (acc, g)
  | pid :: rest, acc, g =>
    match processos[pid]? with
    | none => .error .indexError
    | some proc =>
      match compatDe funcionarios proc.categoria with
      | [] => recombineGo funcionarios processos rest acc g
      | c :: cs =>
        recombineGo funcionarios processos rest
          (addTo acc (pickFrom c cs g).1.id pid) (pickFrom c cs g).2

/-- `crossover` (by value): with `random.random() > taxa` return `pai1.copy()`
(the same dict contents), otherwise rebuild from the union of the parents'
assigned items. -/
def crossover (funcionarios : List Funcionario) (processos : List Processo)
    (taxa : ℚ) (pai1 pai2 : SolutionV) (g : Rng) : Except Err (SolutionV × Rng) :=
  if taxa < (nextFloat g).1 then .ok (pai1, (nextFloat g).2)
  else recombineGo funcionarios processos (todosDe pai1 pai2) [] (nextFloat g).2

/-- Remove `pid` from the first worker entry whose list contains it
(`solucao[func_id].remove(processo_id)` then `break`). -/
def removeFirst : SolutionV → Nat → SolutionV
  | [], _ => []
  | (w, l) :: rest, pid =>
    if pid ∈ l then (w, l.erase pid) :: rest else (w, l) :: removeFirst rest pid

/-- `solucao[funcionario.id].append(processo_id)` on a plain dict: appends to
an existing key, `none` (a `KeyError`) when the key is absent. -/
def appendExisting : SolutionV → Nat → Nat → Option SolutionV
  | [], _, _ => none
  | (w, l) :: rest, fid, pid =>
    if w = fid then some ((w, l ++ [pid]) :: rest)
    else (appendExisting rest fid pid).map (fun s => (w, l) :: s)

/-- `mutacao` (by value): with `random.random() > taxa` do nothing; otherwise
pick an assigned item id at random, look its item up positionally
(`self.processos[processo_id]`), remove it from its holder, and if it has a
compatible worker append it to a randomly chosen one — raising `KeyError`
when the chosen worker has no entry in the solution dict. -/
def mutacao (funcionarios : List Funcionario) (processos : List Processo)
    (taxa : ℚ) (sol : SolutionV) (g : Rng) : Except Err (SolutionV × Rng) :=
  if taxa < (nextFloat g).1 then .ok (sol, (nextFloat g).2)
  else
    match flattenIds sol with
    | [] => .ok (sol, (nextFloat g).2)
    | t :: ts =>
      let pid := (pickFrom t ts (nextFloat g).2).1
      let g₂ := (pickFrom t ts (nextFloat g).2).2
      match processos[pid]? with
      | none => .error .indexError
      | some proc =>
        match compatDe funcionarios proc.categoria with
        | [] => .ok (removeFirst sol pid, g₂)
        | c :: cs =>
          match appendExisting (removeFirst sol pid) (pickFrom c cs g₂).1.id pid with
          | none => .error .keyError
          | some sol₂ => .ok (sol₂, (pickFrom c cs g₂).2)

/-! ## Heap-level model of the generational loop

In `executar` the aliasing introduced by `dict.copy()` (shallow: the inner
`list` objects are shared between the copy and the original) is observable,
because `mutacao` mutates those list objects in place.  Solutions are
therefore modelled as association lists from worker id to the *address* of a
list object in a store. -/

/-- The heap of Python `list` objects, addressed by position. -/
abbrev Store := List (List Nat)

/-- A solution as the dict holds it: worker id ↦ address of its list object. -/
abbrev HSolution := List (Nat × Nat)

/-- Read the list object at address `a`. -/
def hGet (st : Store) (a : Nat) : List Nat := st.getD a []

/-- Overwrite the list object at address `a`. -/
def hSet (st : Store) (a : Nat) (l : List Nat) : Store := st.set a l

/-- Allocate a fresh list object. -/
def hAlloc (st : Store) (l : List Nat) : Store × Nat := (st ++ [l], st.length)

/-- The by-value contents of a heap solution. -/
def derefSol (st : Store) (sol : HSolution) : SolutionV :=
  sol.map (fun e => (e.1, hGet st e.2))

/-- Allocate fresh list objects for a freshly built by-value solution
(`defaultdict(list)` creates a new list per key). -/
def allocSol (st : Store) (v : SolutionV) : Store × HSolution :=
  match v with
  | [] => (st, [])
  | e :: rest =>
    let (st₁, a) := hAlloc st e.2
    let (st₂, hs) := allocSol st₁ rest
    (st₂, (e.1, a) :: hs)

/-- `gerar_solucao_aleatoria` at heap level: build the solution and allocate
its per-worker list objects. -/
def gerarH (funcionarios : List Funcionario) (processos : List Processo)
    (st : Store) (g : Rng) : Store × HSolution × Rng :=
  let (v, g') := gerar_solucao_aleatoria funcionarios processos g
  let (st', hs) := allocSol st v
  (st', hs, g')

/-- `crossover` at heap level.  The no-recombination branch is
`pai1.copy()`: a fresh dict with the *same* list objects, i.e. the same
association list of addresses.  The recombination branch builds a fresh dict
with fresh list objects. -/
def crossoverH (funcionarios : List Funcionario) (processos : List Processo)
    (taxa : ℚ) (st : Store) (pai1 pai2 : HSolution) (g : Rng) :
    Except Err (Store × HSolution × Rng) :=
  let (r, g') := nextFloat g
  if taxa < r then .ok (st, pai1, g')
  else
    match recombineGo funcionarios processos
        (todosDe (derefSol st pai1) (derefSol st pai2)) [] g' with
    | .error e => .error e
    | .ok (v, g₂) =>
      let (st', hs) := allocSol st v
      .ok (st', hs, g₂)

/-- Remove `pid` from the first list object (among `sol`'s entries) that
contains it, in place. -/
def removeFirstH (st : Store) (sol : HSolution) (pid : Nat) : Store :=
  match sol with
  | [] => st
  | e :: rest =>
    if pid ∈ hGet st e.2 then hSet st e.2 ((hGet st e.2).erase pid)
    else removeFirstH st rest pid

/-- `mutacao` at heap level: the solution's key-to-address dict is never
changed (keys are never added), only the list objects in the store are
mutated — which is exactly how the in-place Python mutation aliases. -/
def mutacaoH (funcionarios : List Funcionario) (processos : List Processo)
    (taxa : ℚ) (st : Store) (sol : HSolution) (g : Rng) :
    Except Err (Store × Rng) :=
  let (r, g') := nextFloat g
  if taxa < r then .ok (st, g')
  else
    match (sol.map (fun e => hGet st e.2)).flatten with
    | [] => .ok (st, g')
    | t :: ts =>
      let (pid, g₂) := pickFrom t ts g'
      match processos[pid]? with
      | none => .error .indexError
      | some proc =>
        let st₁ := removeFirstH st sol pid
        match compatDe funcionarios proc.categoria with
        | [] => .ok (st₁, g₂)
        | c :: cs =>
          let (f, g₃) := pickFrom c cs g₂
          match sol.find? (fun e => e.1 = f.id) with
          | none => .error .keyError
          | some e => .ok (hSet st₁ e.2 (hGet st₁ e.2 ++ [pid]), g₃)

/-- The optimizer state across generations: the heap, the population, the
best-solution tracker (`none`/`none` models `None` and `float('inf')`), and
the PRNG oracle. -/
structure GAState where
  store : Store
  populacao : List HSolution
  melhor_solucao : Option HSolution
  melhor_fitness : Option ℚ
  rng : Rng
  deriving DecidableEq, Repr

/-- `fitness < melhor_fitness` where `none` stands for `float('inf')`. -/
def ltInfB (b : ℚ) : Option ℚ → Bool
  | none => true
  | some m => decide (b < m)

/-- Score every member of the population (errors propagate, as the Python
exception would). -/
def scorePop (funcionarios : List Funcionario) (processos : List Processo)
    (st : Store) : List HSolution → Except Err (List (HSolution × ℚ))
  | [] => .ok []
  | s :: rest =>
    match calcular_fitness funcionarios processos (derefSol st s) with
    | .error e => .error e
    | .ok q =>
      match scorePop funcionarios processos st rest with
      | .error e => .error e
      | .ok l => .ok ((s, q) :: l)

/-- Stable insertion (ascending fitness) for
`fitness_populacao.sort(key=lambda x: x[1])`. -/
def insFit (x : HSolution × ℚ) : List (HSolution × ℚ) → List (HSolution × ℚ)
  | [] => [x]
  | y :: rest =>
    if x.2 ≤ y.2 then x :: y :: rest else y :: insFit x rest

/-- Stable sort of the scored population by fitness, ascending. -/
def sortByFitness (l : List (HSolution × ℚ)) : List (HSolution × ℚ) :=
  l.foldr insFit []

/-- The child-production loop (`while len(nova_populacao) < P`): pick two
parents with replacement (`random.choice`, `IndexError` when there are no
survivors), cross them, mutate the child in place, and append it. -/
def gerarFilhos (ag : AlgoritmoGenetico) (funcionarios : List Funcionario)
    (processos : List Processo) :
    Nat → List HSolution → Store → List HSolution → Rng →
    Except Err (Store × List HSolution × Rng)
  | 0, _, st, acc, g => .ok (st, acc, g)
  | n + 1, melhores, st, acc, g =>
    match randomChoice melhores g with
    | .error e => .error e
    | .ok (pai1, g₁) =>
      match randomChoice melhores g₁ with
      | .error e => .error e
      | .ok (pai2, g₂) =>
        match crossoverH funcionarios processos ag.taxa_crossover st pai1 pai2 g₂ with
        | .error e => .error e
        | .ok (st', filho, g₃) =>
          match mutacaoH funcionarios processos ag.taxa_mutacao st' filho g₃ with
          | .error e => .error e
          | .ok (st₂, g₄) =>
            gerarFilhos ag funcionarios processos n melhores st₂ (acc ++ [filho]) g₄

/-- One generation of `executar`: score, sort (accessing `[0]` raises
`IndexError` on an empty population), update the best tracker on a strictly
lower fitness, keep the top `P // 2` survivors verbatim, and fill the
population back to size `P` with children.  (The `P // 2` slice uses the
nonnegative interpretation: a nonpositive `P` never reaches the slice in a
run, since the population is then empty and `[0]` raises first.) -/
def geracao (ag : AlgoritmoGenetico) (funcionarios : List Funcionario)
    (processos : List Processo) (s : GAState) : Except Err GAState :=
  match scorePop funcionarios processos s.store s.populacao with
  | .error e => .error e
  | .ok scored =>
    match sortByFitness scored with
    | [] => .error .indexError
    | best :: restS =>
      let novoMS := if ltInfB best.2 s.melhor_fitness then some best.1 else s.melhor_solucao
      let novoMF := if ltInfB best.2 s.melhor_fitness then some best.2 else s.melhor_fitness
      let melhores := ((best :: restS).map (·.1)).take (ag.tamanho_populacao.toNat / 2)
      match gerarFilhos ag funcionarios processos
          (ag.tamanho_populacao.toNat - melhores.length) melhores s.store melhores s.rng with
      | .error e => .error e
      | .ok (st', nova, g') => .ok ⟨st', nova, novoMS, novoMF, g'⟩

/-- `for geracao in range(num_geracoes)` — iterate `geracao`. -/
def iterateGer (ag : AlgoritmoGenetico) (funcionarios : List Funcionario)
    (processos : List Processo) : Nat → GAState → Except Err GAState
  | 0, s => .ok s
  | n + 1, s =>
    match geracao ag funcionarios processos s with
    | .error e => .error e
    | .ok s' => iterateGer ag funcionarios processos n s'

/-- Build the initial population (`[gerar_solucao_aleatoria() for _ in
range(P)]`), threading the heap and the PRNG left to right. -/
def initPop (funcionarios : List Funcionario) (processos : List Processo) :
    Nat → Store → Rng → Store × List HSolution × Rng
  | 0, st, g => (st, [], g)
  | n + 1, st, g =>
    let (st₁, s, g₁) := gerarH funcionarios processos st g
    let (st₂, rest, g₂) := initPop funcionarios processos n st₁ g₁
    (st₂, s :: rest, g₂)

/-- The state `executar` starts from: a fresh heap holding the initial
population, and the tracker initialized to `(None, float('inf'))`. -/
def execInitState (ag : AlgoritmoGenetico) (funcionarios : List Funcionario)
    (processos : List Processo) (g : Rng) : GAState :=
  ⟨(initPop funcionarios processos ag.tamanho_populacao.toNat [] g).1,
   (initPop funcionarios processos ag.tamanho_populacao.toNat [] g).2.1,
   none, none,
   (initPop funcionarios processos ag.tamanho_populacao.toNat [] g).2.2⟩

/-- `executar`: run `num_geracoes` generations and return the final optimizer
state (the Python method returns `self.melhor_solucao`; the final state also
carries the heap needed to read that dict's contents). -/
def executar (ag : AlgoritmoGenetico) (funcionarios : List Funcionario)
    (processos : List Processo) (g : Rng) : Except Err GAState :=
  iterateGer ag funcionarios processos ag.num_geracoes.toNat
    (execInitState ag funcionarios processos g)

/-! ## Specification-side vocabulary used by the theorem statements -/

/-- `x ≤ y` on tracked fitness values, where `none` stands for
`float('inf')`. -/
def fitLEB : Option ℚ → Option ℚ → Bool
  | _, none => true
  | none, some _ => false
  | some a, some b => decide (a ≤ b)

/-- The weight of the item with id `pid`, `0` if absent (used only where a
side condition guarantees presence). -/
def lookupPeso (processos : List Processo) (pid : Nat) : ℚ :=
  ((processos.find? (fun q => q.id = pid)).map (·.peso)).getD 0

/-- The load a solution places on worker `f`: the summed weights of the items
its entries assign to `f.id`. -/
def loadOf (processos : List Processo) (sol : SolutionV) (f : Funcionario) : ℚ :=
  ((sol.filter (fun e => e.1 = f.id)).map
    (fun e => (e.2.map (lookupPeso processos)).sum)).sum

/-- Solution `sol` assigns item `pid` to worker id `w`. -/
def AssignedIn (sol : SolutionV) (w pid : Nat) : Prop :=
  ∃ l, (w, l) ∈ sol ∧ pid ∈ l

/-- Whether the recombination loop keeps item `pid`: it is in positional
range and has at least one compatible worker. -/
def keepB (funcionarios : List Funcionario) (processos : List Processo)
    (pid : Nat) : Bool :=
  match processos[pid]? with
  | none => false
  | some proc => !(compatDe funcionarios proc.categoria).isEmpty

/-! ## Helper lemmas -/

theorem qadd_eq (a b : ℚ) : qadd a b = a + b := (Rat.add_def' a b).symm

theorem qsub_eq (a b : ℚ) : qsub a b = a - b := (Rat.sub_def' a b).symm

theorem qmul_eq (a b : ℚ) : qmul a b = a * b := by
  rw [Rat.mul_def, Rat.normalize_eq_mkRat]
  rfl

theorem qmax_eq (a b : ℚ) : qmax a b = max a b := (max_def a b).symm

theorem qmin_eq (a b : ℚ) : qmin a b = min a b := (min_def a b).symm

theorem qsum_eq (l : List ℚ) : qsum l = l.sum := by
  induction l with
  | nil => rfl
  | cons x xs ih =>
    show qadd x (qsum xs) = (x :: xs).sum
    rw [ih, qadd_eq, List.sum_cons]

theorem flattenIds_nil : flattenIds [] = [] := rfl

theorem flattenIds_cons (w : Nat) (l : List Nat) (rest : SolutionV) :
    flattenIds ((w, l) :: rest) = l ++ flattenIds rest := rfl

theorem pickFrom_mem {α : Type} (x : α) (xs : List α) (g : Rng) :
    (pickFrom x xs g).1 ∈ x :: xs := by
  have h : (nextNat g).1 % (xs.length + 1) < (x :: xs).length := by
    simpa using Nat.mod_lt _ (Nat.succ_pos xs.length)
  simp only [pickFrom]
  rw [List.getD_eq_getElem?_getD, List.getElem?_eq_getElem h]
  exact List.getElem_mem h

theorem addTo_flatten_perm (sol : SolutionV) (fid pid : Nat) :
    List.Perm (flattenIds (addTo sol fid pid)) (pid :: flattenIds sol) := by
  induction sol with
  | nil => exact List.Perm.refl _
  | cons e rest ih =>
    obtain ⟨w, l⟩ := e
    by_cases h : w = fid
    · simp only [addTo, if_pos h, flattenIds_cons]
      rw [List.append_assoc]
      exact List.perm_middle
    · simp only [addTo, if_neg h, flattenIds_cons]
      exact (ih.append_left l).trans List.perm_middle

theorem assignedIn_nil (w pid : Nat) : ¬ AssignedIn [] w pid := by
  rintro ⟨l, hl, -⟩
  simp at hl

theorem assignedIn_cons (w0 : Nat) (l0 : List Nat) (rest : SolutionV)
    (w pid : Nat) :
    AssignedIn ((w0, l0) :: rest) w pid
      ↔ (w = w0 ∧ pid ∈ l0) ∨ AssignedIn rest w pid := by
  constructor
  · rintro ⟨l, hl, hp⟩
    rcases List.mem_cons.mp hl with h | h
    · obtain ⟨rfl, rfl⟩ := Prod.mk.injEq .. ▸ h
      exact Or.inl ⟨rfl, hp⟩
    · exact Or.inr ⟨l, h, hp⟩
  · rintro (⟨rfl, hp⟩ | ⟨l, hl, hp⟩)
    · exact ⟨l0, List.mem_cons_self _ _, hp⟩
    · exact ⟨l, List.mem_cons_of_mem _ hl, hp⟩

theorem addTo_assigned (sol : SolutionV) (fid pid w x : Nat) :
    AssignedIn (addTo sol fid pid) w x
      ↔ (w = fid ∧ x = pid) ∨ AssignedIn sol w x := by
  induction sol with
  | nil =>
    rw [addTo]
    simp only [assignedIn_cons, List.mem_singleton]
  | cons e rest ih =>
    obtain ⟨w0, l0⟩ := e
    rw [addTo]
    by_cases h : w0 = fid
    · rw [if_pos h]
      subst h
      simp only [assignedIn_cons, List.mem_append, List.mem_singleton]
      tauto
    · rw [if_neg h]
      simp only [assignedIn_cons, ih]
      tauto

theorem insUrg_perm (p : Processo) (l : List Processo) :
    List.Perm (insUrg p l) (p :: l) := by
  induction l with
  | nil => exact List.Perm.refl _
  | cons q rest ih =>
    by_cases h : q.urgencia ≤ p.urgencia
    · simp only [insUrg, if_pos h]
      exact List.Perm.refl _
    · simp only [insUrg, if_neg h]
      exact (ih.cons q).trans (List.Perm.swap p q rest)

theorem sortDescUrg_perm (ps : List Processo) :
    List.Perm (sortDescUrg ps) ps := by
  induction ps with
  | nil => exact List.Perm.refl _
  | cons p rest ih =>
    exact (insUrg_perm p (sortDescUrg rest)).trans (ih.cons p)

theorem removeFirst_flatten (sol : SolutionV) (pid : Nat) :
    flattenIds (removeFirst sol pid) = (flattenIds sol).erase pid := by
  induction sol with
  | nil => rfl
  | cons e rest ih =>
    obtain ⟨w, l⟩ := e
    by_cases h : pid ∈ l
    · simp only [removeFirst, if_pos h, flattenIds_cons]
      rw [List.erase_append_left _ h]
    · simp only [removeFirst, if_neg h, flattenIds_cons, ih]
      rw [List.erase_append_right _ h]

theorem appendExisting_flatten :
    ∀ (sol : SolutionV) (fid pid : Nat) (out : SolutionV),
      appendExisting sol fid pid = some out →
      List.Perm (flattenIds out) (pid :: flattenIds sol) := by
  intro sol
  induction sol with
  | nil => intro fid pid out h; cases h
  | cons e rest ih =>
    intro fid pid out h
    obtain ⟨w, l⟩ := e
    by_cases hw : w = fid
    · simp only [appendExisting, if_pos hw, Option.some.injEq] at h
      subst h
      rw [flattenIds_cons, flattenIds_cons, List.append_assoc]
      exact List.perm_middle
    · simp only [appendExisting, if_neg hw, Option.map_eq_some'] at h
      obtain ⟨s', hs', rfl⟩ := h
      rw [flattenIds_cons, flattenIds_cons]
      exact ((ih fid pid s' hs').append_left l).trans List.perm_middle

theorem recombineGo_flatten (funcionarios : List Funcionario)
    (processos : List Processo) :
    ∀ (todos : List Nat) (acc : SolutionV) (g : Rng) (out : SolutionV) (g' : Rng),
      recombineGo funcionarios processos todos acc g = .ok (out, g') →
      List.Perm (flattenIds out)
        (flattenIds acc ++ todos.filter (keepB funcionarios processos)) := by
  intro todos
  induction todos with
  | nil =>
    intro acc g out g' h
    simp only [recombineGo] at h
    cases h
    simp
  | cons pid rest ih =>
    intro acc g out g' h
    rw [recombineGo] at h
    split at h
    next hp => cases h
    next proc hp =>
      split at h
      next hc =>
        have hk : ¬ (keepB funcionarios processos pid = true) := by
          simp [keepB, hp, hc]
        rw [List.filter_cons_of_neg hk]
        exact ih _ _ _ _ h
      next c cs hc =>
        have hk : keepB funcionarios processos pid = true := by
          simp [keepB, hp, hc]
        have h2 := ih _ _ _ _ h
        have h3 := (addTo_flatten_perm acc (pickFrom c cs g).1.id pid).append_right
          (rest.filter (keepB funcionarios processos))
        rw [List.filter_cons_of_pos hk]
        exact (h2.trans h3).trans List.perm_middle.symm

theorem recombineGo_assigned (funcionarios : List Funcionario)
    (processos : List Processo) :
    ∀ (todos : List Nat) (acc : SolutionV) (g : Rng) (out : SolutionV) (g' : Rng),
      recombineGo funcionarios processos todos acc g = .ok (out, g') →
      ∀ w x, AssignedIn out w x →
        AssignedIn acc w x ∨
          ∃ proc, processos[x]? = some proc ∧
            ∃ f, f ∈ compatDe funcionarios proc.categoria ∧ f.id = w := by
  intro todos
  induction todos with
  | nil =>
    intro acc g out g' h w x hax
    simp only [recombineGo] at h
    cases h
    exact Or.inl hax
  | cons pid rest ih =>
    intro acc g out g' h w x hax
    rw [recombineGo] at h
    split at h
    next hp => cases h
    next proc hp =>
      split at h
      next hc => exact ih _ _ _ _ h w x hax
      next c cs hc =>
        rcases ih _ _ _ _ h w x hax with h1 | h2
        · rcases (addTo_assigned acc (pickFrom c cs g).1.id pid w x).mp h1 with
            ⟨hw, hx⟩ | h3
          · subst hx
            refine Or.inr ⟨proc, hp, (pickFrom c cs g).1, ?_, hw.symm⟩
            rw [hc]
            exact pickFrom_mem c cs g
          · exact Or.inl h3
        · exact Or.inr h2

theorem recombineGo_exists (funcionarios : List Funcionario)
    (processos : List Processo) :
    ∀ (todos : List Nat) (acc : SolutionV) (g : Rng),
      (∀ pid ∈ todos, (processos[pid]?).isSome) →
      ∃ out g', recombineGo funcionarios processos todos acc g = .ok (out, g') := by
  intro todos
  induction todos with
  | nil => intro acc g _; exact ⟨acc, g, rfl⟩
  | cons pid rest ih =>
    intro acc g hv
    have hpid := Option.isSome_iff_exists.mp (hv pid (List.mem_cons_self _ _))
    have hrest : ∀ q ∈ rest, (processos[q]?).isSome :=
      fun q hq => hv q (List.mem_cons_of_mem _ hq)
    cases hres : recombineGo funcionarios processos (pid :: rest) acc g with
    | ok pr => exact ⟨pr.1, pr.2, rfl⟩
    | error e =>
      exfalso
      rw [recombineGo] at hres
      split at hres
      next hp =>
        obtain ⟨proc, hp'⟩ := hpid
        rw [hp'] at hp
        cases hp
      next proc hp =>
        split at hres
        next hc =>
          obtain ⟨out, g', heq⟩ := ih acc g hrest
          rw [heq] at hres
          cases hres
        next c cs hc =>
          obtain ⟨out, g', heq⟩ := ih _ _ hrest
          rw [heq] at hres
          cases hres

theorem gerarGo_cons_nil {funcionarios : List Funcionario} {p : Processo}
    {rest : List Processo} {acc : SolutionV} {g : Rng}
    (hc : compatDe funcionarios p.categoria = []) :
    gerarGo funcionarios (p :: rest) acc g = gerarGo funcionarios rest acc g := by
  rw [gerarGo, hc]

theorem gerarGo_cons_cons {funcionarios : List Funcionario} {p : Processo}
    {rest : List Processo} {acc : SolutionV} {g : Rng} {c : Funcionario}
    {cs : List Funcionario} (hc : compatDe funcionarios p.categoria = c :: cs) :
    gerarGo funcionarios (p :: rest) acc g
      = gerarGo funcionarios rest (addTo acc (pickFrom c cs g).1.id p.id)
          (pickFrom c cs g).2 := by
  rw [gerarGo, hc]

theorem gerarGo_flatten (funcionarios : List Funcionario) :
    ∀ (items : List Processo) (acc : SolutionV) (g : Rng),
      List.Perm (flattenIds (gerarGo funcionarios items acc g).1)
        (flattenIds acc ++
          (items.filter
            (fun p => !(compatDe funcionarios p.categoria).isEmpty)).map (·.id)) := by
  intro items
  induction items with
  | nil => intro acc g; simp [gerarGo]
  | cons p rest ih =>
    intro acc g
    cases hc : compatDe funcionarios p.categoria with
    | nil =>
      have hcp : (p :: rest).filter
            (fun q => !(compatDe funcionarios q.categoria).isEmpty)
          = rest.filter (fun q => !(compatDe funcionarios q.categoria).isEmpty) := by
        simp [List.filter_cons, hc]
      rw [hcp, gerarGo_cons_nil hc]
      exact ih acc g
    | cons c cs =>
      have hcp : (p :: rest).filter
            (fun q => !(compatDe funcionarios q.categoria).isEmpty)
          = p :: rest.filter (fun q => !(compatDe funcionarios q.categoria).isEmpty) := by
        simp [List.filter_cons, hc]
      rw [hcp, List.map_cons, gerarGo_cons_cons hc]
      have h2 := ih (addTo acc (pickFrom c cs g).1.id p.id) (pickFrom c cs g).2
      have h3 := (addTo_flatten_perm acc (pickFrom c cs g).1.id p.id).append_right
        ((rest.filter
          (fun q => !(compatDe funcionarios q.categoria).isEmpty)).map (·.id))
      exact (h2.trans h3).trans List.perm_middle.symm

theorem mutacao_nodup (funcionarios : List Funcionario) (processos : List Processo)
    (taxa : ℚ) (sol : SolutionV) (g : Rng) (out : SolutionV) (g' : Rng)
    (hnd : (flattenIds sol).Nodup)
    (h : mutacao funcionarios processos taxa sol g = .ok (out, g')) :
    (flattenIds out).Nodup := by
  simp only [mutacao] at h
  split at h
  next hr =>
    cases h
    exact hnd
  next hr =>
    split at h
    next hf =>
      cases h
      exact hnd
    next t ts hf =>
      split at h
      next hp => cases h
      next proc hp =>
        split at h
        next hc =>
          cases h
          rw [removeFirst_flatten]
          exact hnd.erase _
        next c cs hc =>
          split at h
          next ha => cases h
          next sol₂ ha =>
            cases h
            have hperm := appendExisting_flatten _ _ _ _ ha
            rw [removeFirst_flatten] at hperm
            rw [hperm.nodup_iff]
            refine List.nodup_cons.mpr ⟨?_, hnd.erase _⟩
            intro hmem
            exact ((hnd.mem_erase_iff).mp hmem).1 rfl

theorem sumPesos_ok (processos : List Processo) :
    ∀ (ids : List Nat),
      (∀ pid ∈ ids, (processos.find? (fun q => q.id = pid)).isSome) →
      sumPesos processos ids = .ok ((ids.map (lookupPeso processos)).sum) := by
  intro ids
  induction ids with
  | nil => intro _; simp [sumPesos]
  | cons pid rest ih =>
    intro hv
    obtain ⟨p, hp⟩ := Option.isSome_iff_exists.mp (hv pid (List.mem_cons_self _ _))
    have hrest := fun q hq => hv q (List.mem_cons_of_mem _ hq)
    rw [sumPesos, hp, ih hrest]
    simp [lookupPeso, hp, qadd_eq]

theorem aplicarCarga_eq :
    ∀ (acc : List (Funcionario × ℚ)) (fid : Nat) (w : ℚ),
      ((acc.map (fun fc => fc.1.id)).Nodup) →
      aplicarCarga acc fid w
        = acc.map (fun fc => if fc.1.id = fid then (fc.1, fc.2 + w) else fc) := by
  intro acc
  induction acc with
  | nil => intro fid w _; rfl
  | cons fc rest ih =>
    intro fid w hnd
    obtain ⟨f, c⟩ := fc
    rw [aplicarCarga]
    rw [List.map_cons] at hnd
    have hnd' := List.nodup_cons.mp hnd
    by_cases h : f.id = fid
    · rw [if_pos h, qadd_eq, List.map_cons, if_pos h]
      have hne : ∀ x ∈ rest, ¬ (x.1.id = fid) := by
        intro x hx heq
        exact hnd'.1 (List.mem_map.mpr ⟨x, hx, heq.trans h.symm⟩)
      have : rest.map (fun fc => if fc.1.id = fid then (fc.1, fc.2 + w) else fc)
          = rest.map id := List.map_congr_left (fun x hx => by
            show (if x.1.id = fid then (x.1, x.2 + w) else x) = id x
            rw [if_neg (hne x hx)]
            rfl)
      rw [this, List.map_id]
    · rw [if_neg h, List.map_cons, if_neg h, ih fid w hnd'.2]

theorem loadOf_cons (processos : List Processo) (e : Nat × List Nat)
    (rest : SolutionV) (f : Funcionario) :
    loadOf processos (e :: rest) f
      = (if e.1 = f.id then (e.2.map (lookupPeso processos)).sum else 0)
        + loadOf processos rest f := by
  by_cases h : e.1 = f.id
  · simp [loadOf, List.filter_cons, h]
  · simp [loadOf, List.filter_cons, h]

theorem cargasGo_ok (funcionarios : List Funcionario) (processos : List Processo) :
    ∀ (sol : SolutionV) (acc : List (Funcionario × ℚ)),
      (∀ e ∈ sol, (funcionarios.find? (fun f => f.id = e.1)).isSome ∧
        ∀ pid ∈ e.2, (processos.find? (fun q => q.id = pid)).isSome) →
      cargasGo funcionarios processos sol acc
        = .ok (sol.foldl
            (fun a e => aplicarCarga a e.1 ((e.2.map (lookupPeso processos)).sum))
            acc) := by
  intro sol
  induction sol with
  | nil => intro acc _; rfl
  | cons e rest ih =>
    intro acc hv
    have h1 := hv e (List.mem_cons_self _ _)
    have hrest := fun x hx => hv x (List.mem_cons_of_mem _ hx)
    rw [cargasGo, if_pos h1.1, sumPesos_ok processos e.2 h1.2]
    exact ih _ hrest

theorem foldl_aplicarCarga (processos : List Processo) :
    ∀ (sol : SolutionV) (acc : List (Funcionario × ℚ)),
      ((acc.map (fun fc => fc.1.id)).Nodup) →
      sol.foldl
          (fun a e => aplicarCarga a e.1 ((e.2.map (lookupPeso processos)).sum))
          acc
        = acc.map (fun fc => (fc.1, fc.2 + loadOf processos sol fc.1)) := by
  intro sol
  induction sol with
  | nil =>
    intro acc hnd
    have : acc.map (fun fc => (fc.1, fc.2 + loadOf processos [] fc.1)) = acc.map id :=
      List.map_congr_left (fun x _ => by simp [loadOf])
    rw [List.foldl_nil, this, List.map_id]
  | cons e rest ih =>
    intro acc hnd
    rw [List.foldl_cons, aplicarCarga_eq acc e.1 _ hnd]
    have hids : ((acc.map (fun fc =>
          if fc.1.id = e.1 then (fc.1, fc.2 + (e.2.map (lookupPeso processos)).sum)
          else fc)).map (fun fc => fc.1.id)).Nodup := by
      rw [List.map_map]
      have : ((fun fc : Funcionario × ℚ => fc.1.id) ∘ (fun fc =>
          if fc.1.id = e.1 then (fc.1, fc.2 + (e.2.map (lookupPeso processos)).sum)
          else fc)) = fun fc => fc.1.id := by
        funext fc
        by_cases h : fc.1.id = e.1 <;> simp [h]
      rw [this]
      exact hnd
    rw [ih _ hids, List.map_map]
    apply List.map_congr_left
    intro fc _
    by_cases h : fc.1.id = e.1
    · simp only [Function.comp_apply, if_pos h, loadOf_cons, if_pos h.symm]
      rw [add_assoc]
    · have h' : ¬ (e.1 = fc.1.id) := fun heq => h heq.symm
      simp only [Function.comp_apply, if_neg h, loadOf_cons, if_neg h']
      rw [zero_add]

theorem calcular_fitness_of_cargas (funcionarios : List Funcionario)
    (processos : List Processo) (sol : SolutionV) (fc : Funcionario × ℚ)
    (rest : List (Funcionario × ℚ))
    (h : cargasGo funcionarios processos sol (funcionarios.map (fun f => (f, 0)))
      = .ok (fc :: rest)) :
    calcular_fitness funcionarios processos sol
      = .ok (qadd (qsub (maxQ fc.2 (rest.map (fun x => x.2)))
            (minQ fc.2 (rest.map (fun x => x.2))))
          (penalidade (fc :: rest))) := by
  rw [calcular_fitness, h]

theorem calcular_fitness_spec (f₀ : Funcionario) (fs : List Funcionario)
    (processos : List Processo) (sol : SolutionV)
    (hnd : ((f₀ :: fs).map (fun f => f.id)).Nodup)
    (hval : ∀ e ∈ sol, ((f₀ :: fs).find? (fun f => f.id = e.1)).isSome ∧
      ∀ pid ∈ e.2, (processos.find? (fun q => q.id = pid)).isSome) :
    calcular_fitness (f₀ :: fs) processos sol
      = .ok (maxQ (loadOf processos sol f₀) (fs.map (loadOf processos sol))
          - minQ (loadOf processos sol f₀) (fs.map (loadOf processos sol))
          + ((f₀ :: fs).map (fun f =>
              if f.carga_horaria < loadOf processos sol f
              then (loadOf processos sol f - f.carga_horaria) * 1000 else 0)).sum) := by
  have hcomp0 : ((fun fc : Funcionario × ℚ => fc.1.id)
      ∘ (fun f : Funcionario => (f, (0 : ℚ)))) = fun f : Funcionario => f.id := by
    funext f
    rfl
  have hids : (((f₀ :: fs).map (fun f => (f, (0 : ℚ)))).map
      (fun fc => fc.1.id)).Nodup := by
    rw [List.map_map, hcomp0]
    exact hnd
  have hcomp1 : ((fun fc : Funcionario × ℚ =>
        (fc.1, fc.2 + loadOf processos sol fc.1))
      ∘ (fun f : Funcionario => (f, (0 : ℚ))))
      = fun f : Funcionario => (f, loadOf processos sol f) := by
    funext f
    show ((f, (0 : ℚ)).1, (f, (0 : ℚ)).2 + loadOf processos sol (f, (0 : ℚ)).1)
      = (f, loadOf processos sol f)
    rw [zero_add]
  have hacc : cargasGo (f₀ :: fs) processos sol ((f₀ :: fs).map (fun f => (f, (0 : ℚ))))
      = .ok ((f₀, loadOf processos sol f₀)
          :: fs.map (fun f => (f, loadOf processos sol f))) := by
    rw [cargasGo_ok _ _ _ _ hval, foldl_aplicarCarga _ _ _ hids, List.map_map,
      hcomp1, List.map_cons]
  have hred := calcular_fitness_of_cargas (f₀ :: fs) processos sol
    (f₀, loadOf processos sol f₀) (fs.map (fun f => (f, loadOf processos sol f))) hacc
  have hcomp2 : ((fun x : Funcionario × ℚ => x.2)
      ∘ (fun f : Funcionario => (f, loadOf processos sol f)))
      = loadOf processos sol := by
    funext f
    rfl
  have hcomp3 : ((fun fc : Funcionario × ℚ =>
        if fc.1.carga_horaria < fc.2
        then qmul (qsub fc.2 fc.1.carga_horaria) 1000 else 0)
      ∘ (fun f : Funcionario => (f, loadOf processos sol f)))
      = fun f : Funcionario =>
          if f.carga_horaria < loadOf processos sol f
          then (loadOf processos sol f - f.carga_horaria) * 1000 else 0 := by
    funext f
    by_cases h : f.carga_horaria < loadOf processos sol f <;>
      simp [h, qmul_eq, qsub_eq]
  have hpen : penalidade ((f₀, loadOf processos sol f₀)
        :: fs.map (fun f => (f, loadOf processos sol f)))
      = ((f₀ :: fs).map (fun f =>
          if f.carga_horaria < loadOf processos sol f
          then (loadOf processos sol f - f.carga_horaria) * 1000 else 0)).sum := by
    have hlist : ((f₀, loadOf processos sol f₀)
          :: fs.map (fun f => (f, loadOf processos sol f)))
        = (f₀ :: fs).map (fun f => (f, loadOf processos sol f)) := by
      rw [List.map_cons]
    simp only [penalidade, qsum_eq, hlist, List.map_map, hcomp3]
  rw [hred, qadd_eq, qsub_eq, List.map_map, hcomp2, hpen]

theorem le_maxQ_init (x : ℚ) (xs : List ℚ) : x ≤ maxQ x xs := by
  induction xs generalizing x with
  | nil => exact le_refl x
  | cons y ys ih =>
    refine le_trans ?_ (ih (qmax x y))
    rw [qmax_eq]
    exact le_max_left x y

theorem minQ_le_init (x : ℚ) (xs : List ℚ) : minQ x xs ≤ x := by
  induction xs generalizing x with
  | nil => exact le_refl x
  | cons y ys ih =>
    refine le_trans (ih (qmin x y)) ?_
    rw [qmin_eq]
    exact min_le_left x y

theorem minQ_le_maxQ (x : ℚ) (xs : List ℚ) : minQ x xs ≤ maxQ x xs :=
  le_trans (minQ_le_init x xs) (le_maxQ_init x xs)

theorem fitLEB_refl (x : Option ℚ) : fitLEB x x = true := by
  cases x with
  | none => rfl
  | some a => simp [fitLEB]

theorem fitLEB_trans (x y z : Option ℚ) (h1 : fitLEB x y = true)
    (h2 : fitLEB y z = true) : fitLEB x z = true := by
  cases z with
  | none => cases x <;> rfl
  | some c =>
    cases y with
    | none => simp [fitLEB] at h2
    | some b =>
      cases x with
      | none => simp [fitLEB] at h1
      | some a =>
        simp only [fitLEB, decide_eq_true_eq] at h1 h2 ⊢
        exact le_trans h1 h2

theorem ltInfB_fitLEB (b : ℚ) (m : Option ℚ) (h : ltInfB b m = true) :
    fitLEB (some b) m = true := by
  cases m with
  | none => rfl
  | some q =>
    simp only [ltInfB, decide_eq_true_eq] at h
    simp only [fitLEB, decide_eq_true_eq]
    exact le_of_lt h

theorem geracao_tracker (ag : AlgoritmoGenetico) (funcionarios : List Funcionario)
    (processos : List Processo) (s s' : GAState)
    (h : geracao ag funcionarios processos s = .ok s') :
    fitLEB s'.melhor_fitness s.melhor_fitness = true ∧
      ((s'.melhor_fitness = s.melhor_fitness ∧ s'.melhor_solucao = s.melhor_solucao)
        ∨ ∃ b, s'.melhor_fitness = some b ∧ ltInfB b s.melhor_fitness = true) := by
  simp only [geracao] at h
  split at h
  next e heq => cases h
  next scored heq =>
    split at h
    next hsort => cases h
    next best restS hsort =>
      split at h
      next e heq2 => cases h
      next st' nova g' heq2 =>
        cases h
        by_cases hlt : ltInfB best.2 s.melhor_fitness = true
        · constructor
          · show fitLEB (if ltInfB best.2 s.melhor_fitness then some best.2
              else s.melhor_fitness) s.melhor_fitness = true
            rw [if_pos hlt]
            exact ltInfB_fitLEB best.2 s.melhor_fitness hlt
          · right
            refine ⟨best.2, ?_, hlt⟩
            show (if ltInfB best.2 s.melhor_fitness then some best.2
              else s.melhor_fitness) = some best.2
            rw [if_pos hlt]
        · constructor
          · show fitLEB (if ltInfB best.2 s.melhor_fitness then some best.2
              else s.melhor_fitness) s.melhor_fitness = true
            rw [if_neg hlt]
            exact fitLEB_refl _
          · left
            constructor
            · show (if ltInfB best.2 s.melhor_fitness then some best.2
                else s.melhor_fitness) = s.melhor_fitness
              rw [if_neg hlt]
            · show (if ltInfB best.2 s.melhor_fitness then some best.1
                else s.melhor_solucao) = s.melhor_solucao
              rw [if_neg hlt]

theorem iterateGer_tracker (ag : AlgoritmoGenetico) (funcionarios : List Funcionario)
    (processos : List Processo) :
    ∀ (n : Nat) (s s' : GAState),
      iterateGer ag funcionarios processos n s = .ok s' →
      fitLEB s'.melhor_fitness s.melhor_fitness = true := by
  intro n
  induction n with
  | zero =>
    intro s s' h
    simp only [iterateGer] at h
    cases h
    exact fitLEB_refl _
  | succ n ih =>
    intro s s' h
    rw [iterateGer] at h
    split at h
    next e heq => cases h
    next s₁ heq =>
      exact fitLEB_trans _ _ _ (ih s₁ s' h)
        (geracao_tracker ag funcionarios processos s s₁ heq).1

theorem penalidade_nonneg (acc : List (Funcionario × ℚ)) : 0 ≤ penalidade acc := by
  simp only [penalidade, qsum_eq]
  apply List.sum_nonneg
  intro q hq
  simp only [List.mem_map] at hq
  obtain ⟨fc, -, rfl⟩ := hq
  by_cases h : fc.1.carga_horaria < fc.2
  · rw [if_pos h, qmul_eq, qsub_eq]
    have h1 : (0 : ℚ) ≤ fc.2 - fc.1.carga_horaria := by linarith
    have h2 : (0 : ℚ) ≤ (1000 : ℚ) := by norm_num
    exact mul_nonneg h1 h2
  · simp [if_neg h]

/-! ## Claim theorems -/

/-- Claim C1 (code bug): the spec says the survivors are carried into the
next population verbatim and are never perturbed while the children are
produced.  The code violates this: when `crossover` takes its
no-recombination branch it returns the shallow `pai1.copy()` — a new dict
sharing the parent's per-worker `list` objects — and `mutacao` then mutates
those shared list objects in place, changing the surviving parent itself.
This theorem runs one generation on a concrete state (two workers, two unit
items, population 2) whose oracle drives the single child through the copy
branch and one mutation: the first survivor's contents change from
`{1: [0], 2: [1]}` to `{1: [], 2: [1, 0]}`. -/
theorem claim1_elitism_code_bug :
    (geracao ⟨1, 2, mkRat 1 2, mkRat 1 2⟩
        [⟨1, [1], 100, 3⟩, ⟨2, [1], 100, 3⟩]
        [⟨0, 1, 1, 5, 1⟩, ⟨1, 1, 1, 5, 1⟩]
        ⟨[[0], [1], [0], [1]], [[(1, 0), (2, 1)], [(1, 2), (2, 3)]],
          none, none, ⟨[mkRat 9 10, 0], [0, 0, 0, 1]⟩⟩).map
      (fun s => derefSol s.store (s.populacao.headD []))
      = .ok [(1, []), (2, [1, 0])]
    ∧ derefSol [[0], [1], [0], [1]] [(1, 0), (2, 1)] = [(1, [0]), (2, [1])] := by
  decide

/-- Claim C2 (code bug): the spec says mutation never raises and reassigns
the chosen item to a uniformly chosen compatible worker.  The code appends
with `solucao[funcionario.id].append(...)` on a plain dict, which raises
`KeyError` whenever the chosen compatible worker has no entry in the
solution.  Concretely: workers 1 and 2 both compatible with item 0, solution
`{1: [0]}`, mutation fires, picks item 0, removes it, chooses worker 2 —
and raises. -/
theorem claim2_mutacao_keyerror :
    mutacao [⟨1, [1], 10, 1⟩, ⟨2, [1], 10, 1⟩] [⟨0, 1, 1, 1, 1⟩] 1
      [(1, [0])] ⟨[0], [0, 1]⟩ = .error .keyError := by
  decide

/-- Claim C3 counterexample: with the invalid configuration
`taxa_mutacao = 2, taxa_crossover = -1` (both outside `[0,1]`), `executar`
does not reject the configuration — the run completes normally and returns a
final state, refuting "a ConfigurationError is raised at or before the start
of executar". -/
theorem claim3_counterexample :
    executar ⟨1, 2, 2, -1⟩ [⟨1, [1], 100, 3⟩] [⟨0, 1, 1, 5, 1⟩]
        ⟨[mkRat 9 10, 0], [0, 0, 0, 0, 0, 0]⟩
      = .ok ⟨[[0], [0]], [[(1, 0)], [(1, 0)]], some [(1, 0)], some 0, ⟨[], []⟩⟩ := by
  decide

/-- Claim C3 (amended): the optimizer performs no configuration validation at
all: the constructor stores every parameter verbatim (no range check, no
`ConfigurationError` exists in the code), and `executar` simply runs with
whatever values were supplied — e.g. a run with generation count `-3`,
population size `-5`, mutation rate `7/2` and crossover rate `-2` completes
without any error. -/
theorem claim3_no_validation :
    (∀ (g p : ℤ) (tm tc : ℚ),
      (AlgoritmoGenetico.mk g p tm tc).num_geracoes = g ∧
      (AlgoritmoGenetico.mk g p tm tc).tamanho_populacao = p ∧
      (AlgoritmoGenetico.mk g p tm tc).taxa_mutacao = tm ∧
      (AlgoritmoGenetico.mk g p tm tc).taxa_crossover = tc)
    ∧ executar ⟨-3, -5, mkRat 7 2, -2⟩ [] [] ⟨[], []⟩
        = .ok ⟨[], [], none, none, ⟨[], []⟩⟩ :=
  ⟨fun g p tm tc => ⟨rfl, rfl, rfl, rfl⟩, by decide⟩

/-- Claim C4: for a valid solution over a nonempty worker list (worker ids
distinct, every referenced worker and item id present in the domain data),
`calcular_fitness` returns exactly (max per-worker load − min per-worker
load) plus `(load − capacity) * 1000` for each overloaded worker, and the
result is nonnegative; and in the scenario of one worker of capacity 5
holding the single item of weight 8, the fitness is exactly 3000. -/
theorem claim4_fitness (f₀ : Funcionario) (fs : List Funcionario)
    (processos : List Processo) (sol : SolutionV)
    (hnd : ((f₀ :: fs).map (fun f => f.id)).Nodup)
    (hval : ∀ e ∈ sol, ((f₀ :: fs).find? (fun f => f.id = e.1)).isSome ∧
      ∀ pid ∈ e.2, (processos.find? (fun q => q.id = pid)).isSome) :
    (calcular_fitness (f₀ :: fs) processos sol
        = .ok (maxQ (loadOf processos sol f₀) (fs.map (loadOf processos sol))
            - minQ (loadOf processos sol f₀) (fs.map (loadOf processos sol))
            + ((f₀ :: fs).map (fun f =>
                if f.carga_horaria < loadOf processos sol f
                then (loadOf processos sol f - f.carga_horaria) * 1000 else 0)).sum)
      ∧ (∀ q, calcular_fitness (f₀ :: fs) processos sol = .ok q → 0 ≤ q))
    ∧ calcular_fitness [⟨1, [1], 5, 1⟩] [⟨0, 1, 8, 1, 1⟩] [(1, [0])] = .ok 3000 := by
  refine ⟨⟨calcular_fitness_spec f₀ fs processos sol hnd hval, ?_⟩, by decide⟩
  intro q hq
  rw [calcular_fitness_spec f₀ fs processos sol hnd hval] at hq
  cases hq
  have h1 : minQ (loadOf processos sol f₀) (fs.map (loadOf processos sol))
      ≤ maxQ (loadOf processos sol f₀) (fs.map (loadOf processos sol)) :=
    minQ_le_maxQ _ _
  have h2 : (0 : ℚ) ≤ ((f₀ :: fs).map (fun f =>
      if f.carga_horaria < loadOf processos sol f
      then (loadOf processos sol f - f.carga_horaria) * 1000 else 0)).sum := by
    apply List.sum_nonneg
    intro x hx
    simp only [List.mem_map] at hx
    obtain ⟨f, -, rfl⟩ := hx
    by_cases h : f.carga_horaria < loadOf processos sol f
    · rw [if_pos h]
      have h3 : (0 : ℚ) ≤ loadOf processos sol f - f.carga_horaria := by linarith
      have h4 : (0 : ℚ) ≤ (1000 : ℚ) := by norm_num
      exact mul_nonneg h3 h4
    · rw [if_neg h]
  linarith

/-- Claim C4 witness: the theorem applied to the one-worker/one-item
scenario, with its hypotheses discharged by computation. -/
theorem claim4_witness : (0 : ℚ) ≤ 3000 :=
  ((claim4_fitness ⟨1, [1], 5, 1⟩ [] [⟨0, 1, 8, 1, 1⟩] [(1, [0])]
    (by decide) (by decide)).1).2 3000 (by decide)

/-- Claim C5: the best-solution tracker starts at `(None, float('inf'))`
(modelled `(none, none)`), is updated only when a strictly lower fitness
appears, and consequently the tracked best fitness is non-increasing across
the generations of a run. -/
theorem claim5_best_tracking (ag : AlgoritmoGenetico)
    (funcionarios : List Funcionario) (processos : List Processo) (g : Rng)
    (n : Nat) (s s' : GAState)
    (h : iterateGer ag funcionarios processos n s = .ok s') :
    fitLEB s'.melhor_fitness s.melhor_fitness = true
    ∧ (execInitState ag funcionarios processos g).melhor_fitness = none
    ∧ (execInitState ag funcionarios processos g).melhor_solucao = none
    ∧ (∀ t t', geracao ag funcionarios processos t = .ok t' →
        (t'.melhor_fitness = t.melhor_fitness ∧ t'.melhor_solucao = t.melhor_solucao)
        ∨ ∃ b, t'.melhor_fitness = some b ∧ ltInfB b t.melhor_fitness = true) :=
  ⟨iterateGer_tracker ag funcionarios processos n s s' h, rfl, rfl,
   fun t t' ht => (geracao_tracker ag funcionarios processos t t' ht).2⟩

/-- Claim C5 witness: one concrete generation, starting from an untracked
state, ends with tracked fitness `some 0 ≤ ∞`. -/
theorem claim5_witness : fitLEB (some 0) none = true :=
  (claim5_best_tracking ⟨1, 2, mkRat 1 2, mkRat 1 2⟩
    [⟨1, [1], 100, 3⟩, ⟨2, [1], 100, 3⟩]
    [⟨0, 1, 1, 5, 1⟩, ⟨1, 1, 1, 5, 1⟩] ⟨[], []⟩ 1
    ⟨[[0], [1], [0], [1]], [[(1, 0), (2, 1)], [(1, 2), (2, 3)]],
      none, none, ⟨[mkRat 9 10, 0], [0, 0, 0, 1]⟩⟩
    ⟨[[], [1, 0], [0], [1]], [[(1, 0), (2, 1)], [(1, 0), (2, 1)]],
      some [(1, 0), (2, 1)], some 0, ⟨[], []⟩⟩
    (by decide)).1

/-- Claim C6: when the crossover-rate draw succeeds, and every item id
appearing in either parent equals its position in the item list and has at
least one compatible worker, the child's assigned-id set is exactly the
union of the parents' assigned-id sets; each item of the union is assigned
exactly once, to a worker drawn by the `random.choice` oracle from that
item's compatible-worker subset — independently of which parent or worker
held it. -/
theorem claim6_crossover_union (funcionarios : List Funcionario)
    (processos : List Processo) (taxa : ℚ) (pai1 pai2 : SolutionV) (g : Rng)
    (hdraw : (nextFloat g).1 ≤ taxa)
    (hids : ∀ pid ∈ todosDe pai1 pai2,
      ∃ proc, processos[pid]? = some proc ∧ proc.id = pid ∧
        compatDe funcionarios proc.categoria ≠ []) :
    ∃ filho g', crossover funcionarios processos taxa pai1 pai2 g = .ok (filho, g')
      ∧ (∀ x, x ∈ flattenIds filho ↔ (x ∈ flattenIds pai1 ∨ x ∈ flattenIds pai2))
      ∧ (flattenIds filho).Nodup
      ∧ (∀ w x, AssignedIn filho w x →
          ∃ f ∈ funcionarios, f.id = w ∧
            ∃ proc, processos[x]? = some proc ∧ proc.categoria ∈ f.especialidades) := by
  have hnotlt : ¬ (taxa < (nextFloat g).1) := not_lt.mpr hdraw
  have hsome : ∀ pid ∈ todosDe pai1 pai2, (processos[pid]?).isSome := by
    intro pid hp
    obtain ⟨proc, hproc, -, -⟩ := hids pid hp
    rw [hproc]
    rfl
  obtain ⟨out, g', hout⟩ := recombineGo_exists funcionarios processos
    (todosDe pai1 pai2) [] (nextFloat g).2 hsome
  have hfilter : (todosDe pai1 pai2).filter (keepB funcionarios processos)
      = todosDe pai1 pai2 := by
    apply List.filter_eq_self.mpr
    intro pid hp
    obtain ⟨proc, hproc, -, hcompat⟩ := hids pid hp
    cases hcc : compatDe funcionarios proc.categoria with
    | nil => exact absurd hcc hcompat
    | cons c cs => simp [keepB, hproc, hcc]
  have hperm := recombineGo_flatten funcionarios processos _ _ _ _ _ hout
  rw [hfilter] at hperm
  refine ⟨out, g', ?_, ?_, ?_, ?_⟩
  · simp only [crossover]
    rw [if_neg hnotlt]
    exact hout
  · intro x
    rw [hperm.mem_iff]
    simp [flattenIds_nil, todosDe, List.mem_dedup, List.mem_append]
  · have hnd : (flattenIds [] ++ todosDe pai1 pai2).Nodup := by
      simp only [flattenIds_nil, List.nil_append, todosDe]
      exact List.nodup_dedup _
    exact (hperm.nodup_iff).mpr hnd
  · intro w x hax
    rcases recombineGo_assigned funcionarios processos _ _ _ _ _ hout w x hax with
      h1 | ⟨proc, hproc, f, hf, hfid⟩
    · exact absurd h1 (assignedIn_nil w x)
    · simp only [compatDe] at hf
      have hmf := List.mem_filter.mp hf
      refine ⟨f, hmf.1, hfid, proc, hproc, ?_⟩
      simpa using hmf.2

/-- Claim C6 witness: one concrete crossover (two compatible workers, one
item held by the first parent) with a forced recombination draw. -/
theorem claim6_witness :
    ∃ filho g',
      crossover [⟨1, [1], 100, 3⟩, ⟨2, [1], 100, 3⟩] [⟨0, 1, 1, 5, 1⟩] 1
          [(1, [0])] [] ⟨[0], [0]⟩ = .ok (filho, g')
      ∧ (∀ x, x ∈ flattenIds filho
          ↔ (x ∈ flattenIds [(1, [0])] ∨ x ∈ flattenIds ([] : SolutionV)))
      ∧ (flattenIds filho).Nodup
      ∧ (∀ w x, AssignedIn filho w x →
          ∃ f ∈ [(⟨1, [1], 100, 3⟩ : Funcionario), ⟨2, [1], 100, 3⟩], f.id = w ∧
            ∃ proc, ([(⟨0, 1, 1, 5, 1⟩ : Processo)])[x]? = some proc ∧
              proc.categoria ∈ f.especialidades) :=
  claim6_crossover_union [⟨1, [1], 100, 3⟩, ⟨2, [1], 100, 3⟩] [⟨0, 1, 1, 5, 1⟩] 1
    [(1, [0])] [] ⟨[0], [0]⟩ (by decide)
    (fun pid hp => by
      have h0 : todosDe [(1, [0])] [] = [0] := rfl
      rw [h0, List.mem_singleton] at hp
      subst hp
      exact ⟨⟨0, 1, 1, 5, 1⟩, rfl, rfl, by decide⟩)

/-- Claim C7: assignment exclusivity — a solution produced by the
initializer (over items with distinct ids), by crossover (from a first
parent satisfying the invariant, for its copy branch), or by mutation
(applied to a solution satisfying the invariant) assigns every item id at
most once: the flattened assigned ids contain no duplicate, so no id sits
under two workers or twice under one. -/
theorem claim7_assignment_exclusivity (funcionarios : List Funcionario)
    (processos : List Processo) :
    (∀ g : Rng, (processos.map (fun p => p.id)).Nodup →
      (flattenIds (gerar_solucao_aleatoria funcionarios processos g).1).Nodup)
    ∧ (∀ (taxa : ℚ) (pai1 pai2 : SolutionV) (g : Rng) (filho : SolutionV) (g' : Rng),
        (flattenIds pai1).Nodup →
        crossover funcionarios processos taxa pai1 pai2 g = .ok (filho, g') →
        (flattenIds filho).Nodup)
    ∧ (∀ (taxa : ℚ) (sol : SolutionV) (g : Rng) (out : SolutionV) (g' : Rng),
        (flattenIds sol).Nodup →
        mutacao funcionarios processos taxa sol g = .ok (out, g') →
        (flattenIds out).Nodup) := by
  refine ⟨?_, ?_, ?_⟩
  · intro g hnd
    have hperm := gerarGo_flatten funcionarios (sortDescUrg processos) [] g
    have hsort : ((sortDescUrg processos).map (fun p => p.id)).Nodup :=
      (((sortDescUrg_perm processos).map (fun p => p.id)).nodup_iff).mpr hnd
    have hsub : (((sortDescUrg processos).filter
          (fun p => !(compatDe funcionarios p.categoria).isEmpty)).map
            (fun p => p.id)).Sublist
        ((sortDescUrg processos).map (fun p => p.id)) :=
      (List.filter_sublist _).map _
    have hnd2 := hsort.sublist hsub
    show (flattenIds (gerarGo funcionarios (sortDescUrg processos) [] g).1).Nodup
    rw [hperm.nodup_iff]
    simpa [flattenIds_nil] using hnd2
  · intro taxa pai1 pai2 g filho g' hnd h
    simp only [crossover] at h
    split at h
    next hlt =>
      cases h
      exact hnd
    next hlt =>
      have hperm := recombineGo_flatten funcionarios processos _ _ _ _ _ h
      rw [hperm.nodup_iff]
      have hndf : ((todosDe pai1 pai2).filter (keepB funcionarios processos)).Nodup :=
        (List.nodup_dedup _).filter _
      simpa [flattenIds_nil] using hndf
  · intro taxa sol g out g' hnd h
    exact mutacao_nodup funcionarios processos taxa sol g out g' hnd h

/-- Claim C7 witness: the three parts applied to concrete inputs. -/
theorem claim7_witness :
    (flattenIds (gerar_solucao_aleatoria [⟨1, [1], 100, 3⟩]
        [⟨0, 1, 1, 5, 1⟩, ⟨1, 1, 1, 4, 1⟩] ⟨[], [0, 0]⟩).1).Nodup :=
  (claim7_assignment_exclusivity [⟨1, [1], 100, 3⟩]
    [⟨0, 1, 1, 5, 1⟩, ⟨1, 1, 1, 4, 1⟩]).1 ⟨[], [0, 0]⟩ (by decide)

/-- Claim C8 counterexample: `random.random()` can return exactly `0.0`, and
`0.0 > 0` is false, so crossover with rate `0` takes the recombination
branch on that draw instead of returning a copy of the first parent: with
`pai1 = {}` and `pai2 = {1: [0]}` the result is `{1: [0]} ≠ {}`.  This
refutes "for every random draw". -/
theorem claim8_counterexample :
    crossover [⟨1, [1], 100, 3⟩, ⟨2, [1], 100, 3⟩] [⟨0, 1, 1, 5, 1⟩] 0 []
        [(1, [0])] ⟨[0], [0]⟩ = .ok ([(1, [0])], ⟨[], []⟩)
    ∧ ([(1, [0])] : SolutionV) ≠ [] := by
  decide

/-- Claim C8 (amended): for every draw of `random.random()` other than the
boundary value `0.0` (i.e. whenever the drawn value is positive — which has
probability 1), crossover with rate 0 returns the first parent itself
(hence with the first parent's fitness) and mutation with rate 0 leaves its
input unchanged; at the measure-zero draw `0.0` the variation branch runs
instead. -/
theorem claim8_rate_zero (funcionarios : List Funcionario)
    (processos : List Processo) (pai1 pai2 sol : SolutionV) (g : Rng)
    (h : 0 < (nextFloat g).1) :
    crossover funcionarios processos 0 pai1 pai2 g = .ok (pai1, (nextFloat g).2)
    ∧ mutacao funcionarios processos 0 sol g = .ok (sol, (nextFloat g).2) := by
  constructor
  · simp only [crossover]
    rw [if_pos h]
  · simp only [mutacao]
    rw [if_pos h]

/-- Claim C8 witness: a concrete positive draw. -/
theorem claim8_witness :
    crossover [] [] 0 [(5, [7])] [] ⟨[mkRat 1 2], []⟩ = .ok ([(5, [7])], ⟨[], []⟩)
    ∧ mutacao [] [] 0 [(5, [7])] ⟨[mkRat 1 2], []⟩ = .ok ([(5, [7])], ⟨[], []⟩) :=
  claim8_rate_zero [] [] [(5, [7])] [] [(5, [7])] ⟨[mkRat 1 2], []⟩ (by decide)

/-- Claim C9: with zero workers, fitness evaluation never returns a value:
an empty solution reaches `max([])`, which raises `ValueError`, and a
nonempty solution fails its worker lookup first (`StopIteration`); either
way the evaluation fails explicitly with an exception. -/
theorem claim9_zero_workers (processos : List Processo) (sol : SolutionV) :
    ∃ e, calcular_fitness [] processos sol = .error e :=
  match sol with
  | [] => ⟨.valueError, rfl⟩
  | _ :: _ => ⟨.stopIteration, rfl⟩

/-- Claim C10 (code bug): the spec says the solution returned at the end of
the run still evaluates to the tracked best fitness.  The code stores a
*reference* into the population as `melhor_solucao`; in a later
child-production step the no-recombination `pai1.copy()` shares that dict's
list objects and `mutacao` rewrites them in place, so the stored best
solution's contents change after being recorded.  In this concrete
one-generation run the tracker records fitness `0`, yet the returned
solution re-evaluates to `2`. -/
theorem claim10_best_divergence :
    (executar ⟨1, 2, mkRat 1 2, mkRat 1 2⟩
        [⟨1, [1], 100, 3⟩, ⟨2, [1], 100, 3⟩]
        [⟨0, 1, 1, 5, 1⟩, ⟨1, 1, 1, 5, 1⟩]
        ⟨[mkRat 9 10, 0], [0, 1, 0, 1, 0, 0, 0, 1]⟩).map
      (fun s => (s.melhor_fitness, s.melhor_solucao.map (fun m =>
        calcular_fitness [⟨1, [1], 100, 3⟩, ⟨2, [1], 100, 3⟩]
          [⟨0, 1, 1, 5, 1⟩, ⟨1, 1, 1, 5, 1⟩] (derefSol s.store m))))
      = .ok (some 0, some (.ok 2)) := by
  decide
